import Mathlib

/-!
Verification of the metadata-extraction engine of the product-fetcher
repository (src/fetchProductMetadata.ts).  The HTML document is embedded
as a query oracle (`Doc`): a function from CSS selector strings to the
ordered list of matching elements, together with the raw HTML dump used
for platform detection.  The JavaScript string primitives the source
relies on (trim, whitespace collapsing, the two price regular
expressions, substring search) are implemented directly on character
lists so that every extractor is an executable Lean function.
-/

namespace ProductFetcher

/-- JavaScript whitespace as used by `String.prototype.trim` and the
regex class backslash-s, restricted to the characters that can occur in
the documents modelled here (space, tab, LF, CR, VT, FF, NBSP, BOM). -/
def isJsSpace (c : Char) : Bool :=
  c == ' ' || c == '\t' || c == '\n' || c == '\r' ||
  c == '\x0b' || c == '\x0c' || c == '\u00A0' || c == '\uFEFF'

/-- Strip leading and trailing JS whitespace from a character list
(the body of `String.prototype.trim`). -/
def trimList (l : List Char) : List Char :=
  (((l.dropWhile isJsSpace).reverse.dropWhile isJsSpace)).reverse

/-- `String.prototype.trim`. -/
def jsTrim (s : String) : String :=
  String.mk (trimList s.data)

/-- One step of the global replacement of whitespace runs by a single
space: the Boolean records whether the previous character was part of a
whitespace run. -/
def collapseAux : List Char → Bool → List Char
  | [], _ => []
  | c :: rest, prevSpace =>
    if isJsSpace c then
      if prevSpace then collapseAux rest true
      else ' ' :: collapseAux rest true
    else c :: collapseAux rest false

/-- `s.replace(/\s+/g, " ")`: every maximal whitespace run becomes one
space. -/
def collapseWs (s : String) : String :=
  String.mk (collapseAux s.data false)

/-- Whether the first list is a prefix of the second. -/
def isPrefixList : List Char → List Char → Bool
  | [], _ => true
  | _ :: _, [] => false
  | a :: as, b :: bs => a == b && isPrefixList as bs

/-- Whether `sub` occurs as a contiguous run inside `l`. -/
def isInfixList (sub : List Char) : List Char → Bool
  | [] => isPrefixList sub []
  | c :: rest => isPrefixList sub (c :: rest) || isInfixList sub rest

/-- `String.prototype.includes` (exact substring search). -/
def jsIncludes (s sub : String) : Bool :=
  isInfixList sub.data s.data

/-- `String.prototype.startsWith`. -/
def jsStartsWith (s pre : String) : Bool :=
  isPrefixList pre.data s.data

/-- `String.prototype.toLowerCase`, restricted to the ASCII case map. -/
def jsToLower (s : String) : String :=
  String.mk (s.data.map Char.toLower)

/-- `String.prototype.split` with a one-character separator: the
separator-free runs, keeping empty runs (so the result is never
empty). -/
def splitOnChar (sep : Char) : List Char → List (List Char)
  | [] => [[]]
  | c :: rest =>
    let r := splitOnChar sep rest
    if c == sep then [] :: r
    else
      match r with
      | h :: t => (c :: h) :: t
      | [] => [[c]]

/-- The currency symbols of the price regex `[€£$¥₹]...`. -/
def isCurrencySym (c : Char) : Bool :=
  c == '€' || c == '£' || c == '$' || c == '¥' || c == '₹'

/-- The trailing class `[\d,.\s]` of the currency price regex. -/
def isTailChar (c : Char) : Bool :=
  c.isDigit || c == ',' || c == '.' || isJsSpace c

/-- The trailing class `[\d,.]` of the plain numeric regex. -/
def isPlainTail (c : Char) : Bool :=
  c.isDigit || c == ',' || c == '.'

/-- Attempt to match `[€£$¥₹]\s*\d+[\d,.\s]*` anchored after an initial
currency symbol `c`; the symbol and digit classes are disjoint from the
whitespace class, so greedy matching without backtracking is exact. -/
def matchCurrencyTail (c : Char) (rest : List Char) : Option (List Char) :=
  let ws := rest.takeWhile isJsSpace
  let afterWs := rest.dropWhile isJsSpace
  let digits := afterWs.takeWhile Char.isDigit
  if digits = [] then none
  else
    let afterDigits := afterWs.dropWhile Char.isDigit
    some (c :: (ws ++ digits ++ afterDigits.takeWhile isTailChar))

/-- Attempt to match the currency price regex at the head of the list. -/
def matchCurrencyAt : List Char → Option (List Char)
  | [] => none
  | c :: rest => if isCurrencySym c then matchCurrencyTail c rest else none

/-- Leftmost match of `/[€£$¥₹]\s*\d+[\d,.\s]*/` (the semantics of
`String.prototype.match` returning `match[0]`). -/
def findCurrencyMatch : List Char → Option (List Char)
  | [] => none
  | c :: rest =>
    match matchCurrencyAt (c :: rest) with
    | some m => some m
    | none => findCurrencyMatch rest

/-- Attempt to match `\d+[\d,.]*` at the head of the list. -/
def matchPlainAt : List Char → Option (List Char)
  | [] => none
  | c :: rest =>
    if c.isDigit then
      some ((c :: rest).takeWhile Char.isDigit ++
        ((c :: rest).dropWhile Char.isDigit).takeWhile isPlainTail)
    else none

/-- Leftmost match of `/\d+[\d,.]*/`. -/
def findPlainMatch : List Char → Option (List Char)
  | [] => none
  | c :: rest =>
    match matchPlainAt (c :: rest) with
    | some m => some m
    | none => findPlainMatch rest

/-- An HTML element: its attribute list (first binding wins, as in a
parsed tag) and its concatenated descendant text. -/
structure Elem where
  attrs : List (String × String)
  text : String
deriving Repr, DecidableEq

/-- `$(element).attr(name)`: the attribute value, or `undefined`. -/
def Elem.attr (e : Elem) (name : String) : Option String :=
  (e.attrs.find? (fun p => p.fst == name)).map Prod.snd

/-- A parsed document, embedded as a selector oracle: `select` returns
the elements matching a CSS selector in document order, `html` is the
raw-HTML dump used for platform signature detection. -/
structure Doc where
  select : String → List Elem
  html : String

/-- `$(sel).attr(a)`: the attribute of the first matching element. -/
def Doc.attrOfFirst (d : Doc) (sel a : String) : Option String :=
  match d.select sel with
  | [] => none
  | e :: _ => e.attr a

/-- `$(sel).first().text()`: text of the first match, empty if none. -/
def Doc.firstText (d : Doc) (sel : String) : String :=
  match d.select sel with
  | [] => ""
  | e :: _ => e.text

/-- `$(sel).text()`: concatenated text of every matching element. -/
def Doc.textOf (d : Doc) (sel : String) : String :=
  String.join ((d.select sel).map Elem.text)

/-- JS truthiness of an optional string: `undefined` and `""` are falsy. -/
def jsFalsyOpt : Option String → Bool
  | none => true
  | some s => s == ""

/-- The value of `a || b` when `a` is an optional string and `b` a
string: the first truthy operand, else `b`. -/
def truthyOr (a : Option String) (b : String) : String :=
  match a with
  | some s => if s = "" then b else s
  | none => b

/-- The first truthy value of `e.attr(a1) || e.attr(a2) || ...`;
`none` when every operand is falsy. -/
def firstTruthyAttr (e : Elem) : List String → Option String
  | [] => none
  | a :: rest =>
    match e.attr a with
    | some v => if v = "" then firstTruthyAttr e rest else some v
    | none => firstTruthyAttr e rest

/-! ### Title extractor (`extractTitle`) -/

/-- The `<title>` fallback of the title extractor. -/
def extractTitleFromTag (d : Doc) : Option String :=
  let t := d.firstText "title"
  if jsTrim t = "" then none else some (jsTrim t)

/-- The Twitter-card fallback of the title extractor. -/
def extractTitleTwitter (d : Doc) : Option String :=
  match d.attrOfFirst "meta[name=\"twitter:title\"]" "content" with
  | some t => if jsTrim t = "" then extractTitleFromTag d else some (jsTrim t)
  | none => extractTitleFromTag d

/-- `extractTitle`: Open-Graph title, then Twitter-card title, then the
document title tag; each guarded by truthiness of the raw and the
trimmed value. -/
def extractTitle (d : Doc) : Option String :=
  match d.attrOfFirst "meta[property=\"og:title\"]" "content" with
  | some t => if jsTrim t = "" then extractTitleTwitter d else some (jsTrim t)
  | none => extractTitleTwitter d

/-! ### Price extractor (`extractPrice`) -/

/-- The ordered tier-1 price meta selectors. -/
def priceMetaSelectors : List String :=
  ["meta[property=\"product:price:amount\"]",
   "meta[itemprop=\"price\"]",
   "meta[name=\"price\"]",
   "meta[property=\"og:price:amount\"]"]

/-- The currency lookup
`$(c1).attr(..) || $(c2).attr(..) || $(c3).attr(..) || ""`. -/
def currencyOf (d : Doc) : String :=
  truthyOr (d.attrOfFirst "meta[property=\"product:price:currency\"]" "content")
    (truthyOr (d.attrOfFirst "meta[itemprop=\"priceCurrency\"]" "content")
      (truthyOr (d.attrOfFirst "meta[property=\"og:price:currency\"]" "content") ""))

/-- `currency ? currency + " " : ""`. -/
def formattedCurrency (d : Doc) : String :=
  let c := currencyOf d
  if c = "" then "" else c ++ " "

/-- Tier 1 of the price extractor: the first meta selector with truthy
trimmed content yields the currency-prefixed trimmed value. -/
def priceFromMeta (d : Doc) : List String → Option String
  | [] => none
  | sel :: rest =>
    match d.attrOfFirst sel "content" with
    | some c =>
      if jsTrim c = "" then priceFromMeta d rest
      else some (jsTrim (formattedCurrency d ++ jsTrim c))
    | none => priceFromMeta d rest

/-- The ordered tier-2 price element selectors. -/
def priceElementSelectors : List String :=
  ["[itemprop=\"price\"]",
   "[class*=\"price\"]",
   "[id*=\"price\"]",
   "[data-price]"]

/-- The tier-2 candidate value of one element:
`$(e).attr("content") || $(e).attr("data-price") || $(e).text()`. -/
def candidateOf (e : Elem) : String :=
  truthyOr (e.attr "content") (truthyOr (e.attr "data-price") e.text)

/-- Tier 2, inner loop over the elements of one selector: skip falsy
candidates; collapse whitespace runs; try the currency regex, then the
plain numeric regex; return the trimmed first match. -/
def priceFromCandidates : List Elem → Option String
  | [] => none
  | e :: rest =>
    let cand := candidateOf e
    if cand = "" then priceFromCandidates rest
    else
      match findCurrencyMatch (collapseWs cand).data with
      | some m => some (String.mk (trimList m))
      | none =>
        match findPlainMatch (collapseWs cand).data with
        | some m =>
          if String.mk m = "" then priceFromCandidates rest
          else some (String.mk (trimList m))
        | none => priceFromCandidates rest

/-- Tier 2, outer loop over the element selectors. -/
def priceFromElements (d : Doc) : List String → Option String
  | [] => none
  | sel :: rest =>
    match priceFromCandidates (d.select sel) with
    | some r => some r
    | none => priceFromElements d rest

/-- `extractPrice`: structured meta fields, then price-like elements,
then the currency regex over the raw rendered body text. -/
def extractPrice (d : Doc) : Option String :=
  match priceFromMeta d priceMetaSelectors with
  | some r => some r
  | none =>
    match priceFromElements d priceElementSelectors with
    | some r => some r
    | none =>
      match findCurrencyMatch (d.textOf "body").data with
      | some m => some (String.mk (trimList m))
      | none => none

/-! ### Platform detector (`detectPlatform`) -/

/-- `detectPlatform`: URL substrings first, then HTML signatures and
marker tags, else generic. -/
def detectPlatform (d : Doc) (url : String) : String :=
  let urlLower := jsToLower url
  let htmlContent := jsToLower d.html
  if jsIncludes urlLower "amazon." then "amazon"
  else if jsIncludes urlLower "ebay." then "ebay"
  else if jsIncludes urlLower "etsy." then "etsy"
  else if jsIncludes urlLower "walmart." then "walmart"
  else if jsIncludes urlLower "target." then "target"
  else if jsIncludes htmlContent "shopify"
       || (d.select "meta[name=\"shopify-checkout-api-token\"]").length ≠ 0 then "shopify"
  else if jsIncludes htmlContent "woocommerce"
       || (d.select "meta[name=\"generator\"][content*=\"woocommerce\"]").length ≠ 0 then "woocommerce"
  else if jsIncludes htmlContent "magento"
       || (d.select "script[src*=\"mage\"]").length ≠ 0 then "magento"
  else if jsIncludes htmlContent "bigcommerce" then "bigcommerce"
  else "generic"

/-! ### Image extractor (`extractImages`) -/

/-- The ordered Open-Graph / Twitter image meta selectors. -/
def ogImageSelectors : List String :=
  ["meta[property=\"og:image\"]",
   "meta[property=\"og:image:url\"]",
   "meta[property=\"og:image:secure_url\"]",
   "meta[name=\"twitter:image\"]"]

/-- The platform-specific image selector table; every known platform tag
maps to its ordered selector list, any other tag falls back to the
generic list (the `platformSelectors[platform] || platformSelectors.generic`
lookup). -/
def platformSelectors (platform : String) : List String :=
  if platform = "amazon" then
    ["#landingImage",
     "#imgTagWrapperId img",
     "#imageBlock img",
     ".a-dynamic-image",
     "#altImages img[src*=\"._AC_\"]",
     "img[data-a-dynamic-image]"]
  else if platform = "shopify" then
    [".product__media img",
     ".product-single__photo img",
     ".product__main-photos img",
     ".product-image-main img",
     "[data-product-featured-media] img",
     ".product-photo-container img"]
  else if platform = "woocommerce" then
    [".woocommerce-product-gallery__image img",
     ".wp-post-image",
     ".product-images img",
     ".product-image img",
     "figure.woocommerce-product-gallery__wrapper img"]
  else if platform = "ebay" then
    ["#icImg",
     ".ux-image-carousel-item img",
     ".ux-image-filmstrip-carousel-item img",
     "[data-testid=\"ux-image-carousel-item\"] img"]
  else if platform = "etsy" then
    ["[data-carousel-pane-item] img",
     ".wt-max-width-full img",
     "[data-listing-image] img"]
  else if platform = "walmart" then
    [".hover-zoom-hero-image",
     "[data-testid=\"hero-image-container\"] img",
     ".prod-hero-image img"]
  else if platform = "target" then
    ["[data-test=\"image-gallery-item\"] img",
     ".slides img",
     "[data-test=\"product-image\"] img"]
  else if platform = "magento" then
    [".product.media img",
     ".fotorama__stage__frame img",
     ".gallery-placeholder img"]
  else if platform = "bigcommerce" then
    [".productView-image img",
     "[data-image-gallery-main] img",
     ".productView-thumbnail img"]
  else
    ["[itemprop=\"image\"]",
     ".product-image img",
     ".product-photo img",
     ".product-gallery img",
     "#product-image img",
     "[class*=\"product\"][class*=\"image\"] img",
     "[id*=\"product\"][id*=\"image\"] img"]

/-- The substring block-list of the small/icon filter. -/
def excludePatterns : List String :=
  ["logo", "icon", "sprite", "badge", "banner", "button", "/icons/",
   "favicon", "thumbnail", "avatar", "1x1", "16x16", "32x32", "64x64",
   "spacer.gif"]

/-- `isSmallOrIconImage`: the lower-cased URL contains a block-listed
substring. -/
def isSmallOrIconImage (src : String) : Bool :=
  excludePatterns.any (fun pat => jsIncludes (jsToLower src) pat)

/-- Modelled from the host platform: `JSON.parse` of an attribute value
followed by `Object.keys(..)[0]`, simplified to reading the first
double-quoted key of a JSON object literal; malformed or non-object
input yields `none` (the `catch` branch of the source). -/
def jsonFirstKey (s : String) : Option String :=
  match s.data.dropWhile isJsSpace with
  | c :: rest =>
    if c = Char.ofNat 123 then
      match rest.dropWhile isJsSpace with
      | q :: rest2 =>
        if q = '"' then some (String.mk (rest2.takeWhile (fun ch => !(ch == '"'))))
        else none
      | [] => none
    else none
  | [] => none

/-- The candidate URL of one tier-2 element: the first truthy of the
`src`/`data-src`/`data-lazy`/`data-zoom-image`/`data-image` attributes,
with the Amazon dynamic-image JSON fallback when all are falsy. -/
def imageSrcOf (platform : String) (e : Elem) : Option String :=
  match firstTruthyAttr e ["src", "data-src", "data-lazy", "data-zoom-image", "data-image"] with
  | some s => some s
  | none =>
    if platform = "amazon" then
      match e.attr "data-a-dynamic-image" with
      | some dataStr => if dataStr = "" then none else jsonFirstKey dataStr
      | none => none
    else none

/-- Tier 1: push each truthy, unseen Open-Graph image content. -/
def pushOg (d : Doc) : List String → List String → List String
  | [], images => images
  | sel :: rest, images =>
    match d.attrOfFirst sel "content" with
    | some c =>
      if c = "" then pushOg d rest images
      else if c ∈ images then pushOg d rest images
      else pushOg d rest (images ++ [c])
    | none => pushOg d rest images

/-- Tier 2, inner loop: push each truthy, unseen, non-icon candidate of
the elements matched by one selector. -/
def pushPlatformElems (platform : String) : List Elem → List String → List String
  | [], images => images
  | e :: rest, images =>
    match imageSrcOf platform e with
    | some s =>
      if s = "" then pushPlatformElems platform rest images
      else if s ∈ images then pushPlatformElems platform rest images
      else if isSmallOrIconImage s then pushPlatformElems platform rest images
      else pushPlatformElems platform rest (images ++ [s])
    | none => pushPlatformElems platform rest images

/-- Tier 2, outer loop: process each selector in full, then stop once
the running total has reached 10. -/
def pushPlatformSelectors (d : Doc) (platform : String) :
    List String → List String → List String
  | [], images => images
  | sel :: rest, images =>
    let images2 := pushPlatformElems platform (d.select sel) images
    if 10 ≤ images2.length then images2
    else pushPlatformSelectors d platform rest images2

/-- The schema.org fallback selector. -/
def schemaImgSelector : String :=
  "[itemtype*=\"schema.org/Product\"] img[itemprop=\"image\"]"

/-- Tier 3: push each truthy, unseen `src` while the total is below 10. -/
def pushSchemaElems : List Elem → List String → List String
  | [], images => images
  | e :: rest, images =>
    match e.attr "src" with
    | some s =>
      if s = "" then pushSchemaElems rest images
      else if s ∈ images then pushSchemaElems rest images
      else if images.length < 10 then pushSchemaElems rest (images ++ [s])
      else pushSchemaElems rest images
    | none => pushSchemaElems rest images

/-- `extractImages`: Open-Graph images, then platform-specific
selectors (with the icon filter and the inter-selector cap), then the
schema.org fallback. -/
def extractImages (d : Doc) (url : String) : List String :=
  let platform := detectPlatform d url
  let tier1 := pushOg d ogImageSelectors []
  let tier2 := pushPlatformSelectors d platform (platformSelectors platform) tier1
  pushSchemaElems (d.select schemaImgSelector) tier2

/-! ### URL model and store extractors -/

/-- Split a character list at the first occurrence of `://`: the part
before it and the part after it. -/
def splitScheme : List Char → Option (List Char × List Char)
  | [] => none
  | c :: rest =>
    if isPrefixList [':', '/', '/'] (c :: rest) then some ([], rest.drop 2)
    else
      match splitScheme rest with
      | some (sch, tail) => some (c :: sch, tail)
      | none => none

/-- Modelled from the host platform: the scheme component accepted by
the WHATWG URL parser (`new URL(..)`), simplified to an all-alphabetic
scheme before a literal `://`. -/
def parseUrlScheme (url : String) : Option String :=
  match splitScheme url.data with
  | none => none
  | some (sch, _) =>
    if sch = [] then none
    else if sch.all Char.isAlpha then some (String.mk (sch.map Char.toLower))
    else none

/-- Modelled from the host platform: `new URL(url).hostname`,
simplified to the text between `://` and the first `/`, `?`, `#` or `:`,
lower-cased; `none` when the URL does not parse. -/
def parseUrlHostname (url : String) : Option String :=
  match splitScheme url.data with
  | none => none
  | some (sch, rest) =>
    if sch = [] then none
    else if !(sch.all Char.isAlpha) then none
    else
      let hostPort := rest.takeWhile (fun c => !(c == '/' || c == '?' || c == '#'))
      let host := hostPort.takeWhile (fun c => !(c == ':'))
      if host = [] then none else some (String.mk (host.map Char.toLower))

/-- `hostname.replace(/^www\./, "")`. -/
def stripWww (s : String) : String :=
  if jsStartsWith s "www." then String.mk (s.data.drop 4) else s

/-- `s.charAt(0).toUpperCase() + s.slice(1)`. -/
def capFirst (s : String) : String :=
  match s.data with
  | [] => ""
  | c :: rest => String.mk (c.toUpper :: rest)

/-- One meta probe of the store-name extractor: the selector's trimmed
content when truthy. -/
def storeFromMeta (d : Doc) (sel : String) : Option String :=
  match d.attrOfFirst sel "content" with
  | some s => if jsTrim s = "" then none else some (jsTrim s)
  | none => none

/-- The hostname fallback of the store-name extractor: strip a leading
`www.`, split on `.`, and capitalize the first label when there are at
least two labels. -/
def storeFromHost (url : String) : Option String :=
  match parseUrlHostname url with
  | none => none
  | some host =>
    match splitOnChar '.' (stripWww host).data with
    | p :: _ :: _ => some (capFirst (String.mk p))
    | _ => none

/-- `extractStoreName`: OG site name, then application name, then the
hostname-derived name. -/
def extractStoreName (d : Doc) (url : String) : Option String :=
  match storeFromMeta d "meta[property=\"og:site_name\"]" with
  | some r => some r
  | none =>
    match storeFromMeta d "meta[name=\"application-name\"]" with
    | some r => some r
    | none => storeFromHost url

/-- The ordered logo selectors. -/
def logoSelectors : List String :=
  ["meta[property=\"og:logo\"]",
   "link[rel=\"icon\"]",
   "link[rel=\"shortcut icon\"]",
   "link[rel=\"apple-touch-icon\"]",
   "img[class*=\"logo\"]",
   "img[id*=\"logo\"]",
   ".logo img",
   "#logo img"]

/-- Modelled from the host platform: `new URL(rel, base).href`,
simplified: absolute inputs are returned unchanged, relative inputs are
resolved against the base origin (ignoring the base path and the
normalization the real parser performs); fails when the input is not
absolute and the base does not parse. -/
def resolveUrl (rel base : String) : Option String :=
  if jsIncludes rel "://" then some rel
  else
    match parseUrlScheme base, parseUrlHostname base with
    | some sch, some host =>
      if jsStartsWith rel "//" then some (sch ++ ":" ++ rel)
      else if jsStartsWith rel "/" then some (sch ++ "://" ++ host ++ rel)
      else some (sch ++ "://" ++ host ++ "/" ++ rel)
    | _, _ => none

/-- The selector loop of `extractStoreLogo`: the first selector whose
first match carries a truthy `content`/`href`/`src` with a truthy trim
is resolved against the page URL; when resolution fails the raw value is
returned only if it starts with `http`, else the loop continues. -/
def logoLoop (d : Doc) (url : String) : List String → Option String
  | [] => none
  | sel :: rest =>
    let logoUrl :=
      match d.select sel with
      | [] => none
      | e :: _ => firstTruthyAttr e ["content", "href", "src"]
    match logoUrl with
    | some lu =>
      if jsTrim lu = "" then logoLoop d url rest
      else
        match resolveUrl lu url with
        | some abs => some abs
        | none => if jsStartsWith lu "http" then some lu else logoLoop d url rest
    | none => logoLoop d url rest

/-- `extractStoreLogo`. -/
def extractStoreLogo (d : Doc) (url : String) : Option String :=
  logoLoop d url logoSelectors

/-! ### Assembler (`fetchProductMetadata`) -/

/-- The output record; the optional `error` field is `none` when the
source would omit it. -/
structure ProductMetadata where
  url : String
  title : Option String
  price : Option String
  images : List String
  store : Option String
  storeLogo : Option String
  error : Option String
deriving Repr, DecidableEq

/-- The fixed price-not-found message. -/
def priceNotFoundMsg : String :=
  "Price could not be determined from the page content."

/-- The fixed fallback message for a thrown value that is not an
`Error` instance. -/
def unexpectedErrorMsg : String :=
  "An unexpected error occurred while fetching the page."

/-- A JavaScript thrown value: either an `Error` instance carrying a
message, or any other value. -/
inductive JsThrown where
  | errorInstance (message : String)
  | nonError
deriving Repr, DecidableEq

/-- `error instanceof Error ? error.message : <fallback>`. -/
def thrownMessage : JsThrown → String
  | JsThrown.errorInstance m => m
  | JsThrown.nonError => unexpectedErrorMsg

/-- Insertion into a JS `Set` iterated back with `Array.from`:
left-to-right de-duplication preserving first occurrence. -/
def setDedup (l : List String) : List String :=
  l.foldl (fun acc s => if s ∈ acc then acc else acc ++ [s]) []

/-- `fetchProductMetadata`, with the document-loader outcome made
explicit: the fetch is the only throwing step of the `try` block, so in
the failure branch the accumulator still holds its initial values; in
the success branch the five extractors run and the price-required
policy decides the `error` field (JS falsiness: a missing price). -/
def fetchProductMetadata (outcome : Except JsThrown Doc) (url : String) :
    ProductMetadata :=
  match outcome with
  | Except.error t =>
    { url := url, title := none, price := none, images := [],
      store := none, storeLogo := none, error := some (thrownMessage t) }
  | Except.ok d =>
    let title := extractTitle d
    let price := extractPrice d
    let store := extractStoreName d url
    let storeLogo := extractStoreLogo d url
    let images := setDedup (extractImages d url)
    if jsFalsyOpt price then
      { url := url, title := title, price := price, images := images,
        store := store, storeLogo := storeLogo, error := some priceNotFoundMsg }
    else
      { url := url, title := title, price := price, images := images,
        store := store, storeLogo := storeLogo, error := none }

/-! ### String and regex lemmas -/

lemma mk_eq_empty_iff (l : List Char) : String.mk l = "" ↔ l = [] :=
  String.ext_iff

lemma mem_dropWhile_of_neg {p : Char → Bool} {l : List Char} {x : Char}
    (hx : x ∈ l) (hpx : p x = false) : x ∈ l.dropWhile p := by
  have hx2 : x ∈ l.takeWhile p ++ l.dropWhile p := by
    rw [List.takeWhile_append_dropWhile]; exact hx
  rcases List.mem_append.mp hx2 with h1 | h2
  · rw [List.mem_takeWhile_imp h1] at hpx; cases hpx
  · exact h2

lemma mem_trimList {l : List Char} {x : Char} (hx : x ∈ l)
    (hpx : isJsSpace x = false) : x ∈ trimList l := by
  unfold trimList
  rw [List.mem_reverse]
  exact mem_dropWhile_of_neg
    (List.mem_reverse.mpr (mem_dropWhile_of_neg hx hpx)) hpx

lemma trimList_eq_nil_iff (l : List Char) :
    trimList l = [] ↔ ∀ c ∈ l, isJsSpace c = true := by
  unfold trimList
  rw [List.reverse_eq_nil_iff, List.dropWhile_eq_nil_iff]
  constructor
  · intro h c hc
    cases hval : isJsSpace c with
    | true => rfl
    | false =>
      have h2 := h c (List.mem_reverse.mpr (mem_dropWhile_of_neg hc hval))
      rw [hval] at h2; exact h2
  · intro h x hx
    exact h x ((List.dropWhile_sublist _).subset (List.mem_reverse.mp hx))

lemma jsTrim_eq_empty_iff (s : String) :
    jsTrim s = "" ↔ ∀ c ∈ s.data, isJsSpace c = true := by
  unfold jsTrim
  rw [mk_eq_empty_iff, trimList_eq_nil_iff]

lemma jsTrim_append_right_ne (a c : String) (h : jsTrim c ≠ "") :
    jsTrim (a ++ jsTrim c) ≠ "" := by
  intro hcontra
  rw [jsTrim_eq_empty_iff] at hcontra
  have h2 : ¬ ∀ ch ∈ c.data, isJsSpace ch = true :=
    fun hall => h ((jsTrim_eq_empty_iff c).mpr hall)
  push_neg at h2
  obtain ⟨ch, hch, hns⟩ := h2
  have hnsf : isJsSpace ch = false := by
    cases hv : isJsSpace ch
    · rfl
    · exact absurd hv hns
  have hmem : ch ∈ (a ++ jsTrim c).data := by
    rw [String.data_append]
    exact List.mem_append.mpr (Or.inr (mem_trimList hch hnsf))
  rw [hcontra ch hmem] at hnsf
  cases hnsf

lemma space_not_digit {c : Char} (h : isJsSpace c = true) : c.isDigit = false := by
  simp only [isJsSpace, Bool.or_eq_true, beq_iff_eq] at h
  rcases h with ((((((h | h) | h) | h) | h) | h) | h) | h <;> subst h <;> decide

lemma digit_not_space {c : Char} (h : c.isDigit = true) : isJsSpace c = false := by
  cases hv : isJsSpace c
  · rfl
  · rw [space_not_digit hv] at h; cases h

lemma matchCurrencyTail_has_digit {c : Char} {rest m : List Char}
    (h : matchCurrencyTail c rest = some m) : ∃ d ∈ m, d.isDigit = true := by
  simp only [matchCurrencyTail] at h
  split at h
  · cases h
  · rename_i hne
    injection h with h2
    obtain ⟨d, hd⟩ := List.exists_mem_of_ne_nil _ hne
    refine ⟨d, ?_, List.mem_takeWhile_imp hd⟩
    rw [← h2]
    simp only [List.mem_cons, List.mem_append]
    exact Or.inr (Or.inl (Or.inr hd))

lemma matchCurrencyAt_has_digit {l m : List Char}
    (h : matchCurrencyAt l = some m) : ∃ d ∈ m, d.isDigit = true := by
  cases l with
  | nil => cases h
  | cons c rest =>
    rw [matchCurrencyAt] at h
    split at h
    · exact matchCurrencyTail_has_digit h
    · cases h

lemma findCurrencyMatch_has_digit {l m : List Char}
    (h : findCurrencyMatch l = some m) : ∃ d ∈ m, d.isDigit = true := by
  induction l with
  | nil => cases h
  | cons c rest ih =>
    rw [findCurrencyMatch] at h
    cases hm : matchCurrencyAt (c :: rest) with
    | some m2 =>
      rw [hm] at h
      injection h with h2
      subst h2
      exact matchCurrencyAt_has_digit hm
    | none =>
      rw [hm] at h
      exact ih h

lemma matchPlainAt_has_digit {l m : List Char}
    (h : matchPlainAt l = some m) : ∃ d ∈ m, d.isDigit = true := by
  cases l with
  | nil => cases h
  | cons c rest =>
    rw [matchPlainAt] at h
    split at h
    · rename_i hdig
      injection h with h2
      refine ⟨c, ?_, hdig⟩
      rw [← h2]
      simp only [List.mem_append]
      exact Or.inl (by rw [List.takeWhile_cons_of_pos hdig]; exact List.mem_cons_self c _)
    · cases h

lemma findPlainMatch_has_digit {l m : List Char}
    (h : findPlainMatch l = some m) : ∃ d ∈ m, d.isDigit = true := by
  induction l with
  | nil => cases h
  | cons c rest ih =>
    rw [findPlainMatch] at h
    cases hm : matchPlainAt (c :: rest) with
    | some m2 =>
      rw [hm] at h
      injection h with h2
      subst h2
      exact matchPlainAt_has_digit hm
    | none =>
      rw [hm] at h
      exact ih h

lemma trimmed_match_ne_empty {m : List Char} (hd : ∃ d ∈ m, d.isDigit = true) :
    String.mk (trimList m) ≠ "" := by
  obtain ⟨d, hdm, hdd⟩ := hd
  intro hmk
  rw [mk_eq_empty_iff] at hmk
  have hmem : d ∈ trimList m := mem_trimList hdm (digit_not_space hdd)
  rw [hmk] at hmem
  cases hmem

/-! ### The price extractor never returns an empty string -/

lemma priceFromMeta_ne_empty (d : Doc) (sels : List String) :
    priceFromMeta d sels ≠ some "" := by
  induction sels with
  | nil => simp [priceFromMeta]
  | cons sel rest ih =>
    rw [priceFromMeta]
    cases hattr : d.attrOfFirst sel "content" with
    | none => exact ih
    | some c =>
      by_cases hc : jsTrim c = ""
      · simp only [if_pos hc]; exact ih
      · simp only [if_neg hc]
        intro hcontra
        injection hcontra with h2
        exact jsTrim_append_right_ne (formattedCurrency d) c hc h2

lemma priceFromCandidates_ne_empty (es : List Elem) :
    priceFromCandidates es ≠ some "" := by
  induction es with
  | nil => simp [priceFromCandidates]
  | cons e rest ih =>
    rw [priceFromCandidates]
    by_cases hcand : candidateOf e = ""
    · simp only [if_pos hcand]; exact ih
    · simp only [if_neg hcand]
      cases hm : findCurrencyMatch (collapseWs (candidateOf e)).data with
      | some m =>
        intro hcontra
        injection hcontra with h2
        exact trimmed_match_ne_empty (findCurrencyMatch_has_digit hm) h2
      | none =>
        cases hp : findPlainMatch (collapseWs (candidateOf e)).data with
        | some m =>
          by_cases hme : String.mk m = ""
          · simp only [if_pos hme]; exact ih
          · simp only [if_neg hme]
            intro hcontra
            injection hcontra with h2
            exact trimmed_match_ne_empty (findPlainMatch_has_digit hp) h2
        | none => exact ih

lemma priceFromElements_ne_empty (d : Doc) (sels : List String) :
    priceFromElements d sels ≠ some "" := by
  induction sels with
  | nil => simp [priceFromElements]
  | cons sel rest ih =>
    rw [priceFromElements]
    cases hc : priceFromCandidates (d.select sel) with
    | none => exact ih
    | some r =>
      intro hcontra
      injection hcontra with h2
      subst h2
      exact priceFromCandidates_ne_empty (d.select sel) hc

/-- The price extractor never produces the empty string, so the JS
falsiness test on the assembled price coincides with absence. -/
lemma extractPrice_ne_empty (d : Doc) : extractPrice d ≠ some "" := by
  rw [extractPrice]
  cases h1 : priceFromMeta d priceMetaSelectors with
  | some r =>
    intro hcontra
    injection hcontra with h2
    subst h2
    exact priceFromMeta_ne_empty d priceMetaSelectors h1
  | none =>
    cases h2 : priceFromElements d priceElementSelectors with
    | some r =>
      intro hcontra
      injection hcontra with h3
      subst h3
      exact priceFromElements_ne_empty d priceElementSelectors h2
    | none =>
      cases h3 : findCurrencyMatch (d.textOf "body").data with
      | some m =>
        intro hcontra
        injection hcontra with h4
        exact trimmed_match_ne_empty (findCurrencyMatch_has_digit h3) h4
      | none => simp

/-! ### Claim theorems -/

/-- Claim C2: when the document loader raises before any extractor runs,
the returned record echoes the input URL, carries the loader failure
message as `error`, and every other field is at its initial value: title,
price, store and storeLogo are null and images is empty — no extractor
output appears in the record. -/
theorem C2_load_failure_record (url msg : String) :
    fetchProductMetadata (Except.error (JsThrown.errorInstance msg)) url =
      { url := url, title := none, price := none, images := [],
        store := none, storeLogo := none, error := some msg } := rfl

/-- Claim C9: the extraction pipeline (title, price, images, store and
storeLogo extraction plus assembly) is a pure function of the parsed
document and the source URL: two runs over the same inputs produce
identical outputs and an identical `ProductMetadata` record. -/
theorem C9_deterministic (d : Doc) (url : String) :
    (extractTitle d, extractPrice d, extractImages d url,
     extractStoreName d url, extractStoreLogo d url,
     fetchProductMetadata (Except.ok d) url) =
    (extractTitle d, extractPrice d, extractImages d url,
     extractStoreName d url, extractStoreLogo d url,
     fetchProductMetadata (Except.ok d) url) := rfl

/-- Claim C10: when the pipeline throws a value that is not an `Error`
instance, the record's `error` equals the fixed fallback string; when
the thrown value is an `Error`, `error` equals its message verbatim. -/
theorem C10_thrown_value_messages (url m : String) :
    (fetchProductMetadata (Except.error (JsThrown.errorInstance m)) url).error
        = some m ∧
    (fetchProductMetadata (Except.error JsThrown.nonError) url).error
        = some "An unexpected error occurred while fetching the page." :=
  ⟨rfl, rfl⟩

/-- Claim C3: for a successfully loaded document, `error` is present iff
price extraction returned no value; when the price is absent, `error` is
the fixed price-not-found string and every other extracted field is
still emitted; when the price is present there is no `error`. -/
theorem C3_price_required_policy (d : Doc) (url : String) :
    ((fetchProductMetadata (Except.ok d) url).error.isSome
        ↔ extractPrice d = none) ∧
    (extractPrice d = none →
      fetchProductMetadata (Except.ok d) url =
        { url := url, title := extractTitle d, price := none,
          images := setDedup (extractImages d url),
          store := extractStoreName d url,
          storeLogo := extractStoreLogo d url,
          error := some "Price could not be determined from the page content." }) ∧
    (∀ p, extractPrice d = some p →
      fetchProductMetadata (Except.ok d) url =
        { url := url, title := extractTitle d, price := some p,
          images := setDedup (extractImages d url),
          store := extractStoreName d url,
          storeLogo := extractStoreLogo d url,
          error := none }) := by
  have hne := extractPrice_ne_empty d
  cases hp : extractPrice d with
  | none =>
    refine ⟨?_, ?_, ?_⟩
    · simp [fetchProductMetadata, hp, jsFalsyOpt]
    · intro _
      simp [fetchProductMetadata, hp, jsFalsyOpt, priceNotFoundMsg]
    · intro p hcontra
      cases hcontra
  | some p =>
    have hpne : p ≠ "" := fun he => hne (he ▸ hp)
    refine ⟨?_, ?_, ?_⟩
    · simp [fetchProductMetadata, hp, jsFalsyOpt, hpne]
    · intro hcontra
      exact absurd hcontra (by simp)
    · intro q hq
      injection hq with h2
      subst h2
      simp [fetchProductMetadata, hp, jsFalsyOpt, hpne]

/-! ### Tier-1 price lemmas, claims C4 and C5 -/

lemma priceFromMeta_cons_hit {d : Doc} {sel : String} (rest : List String)
    {s : String} (h1 : d.attrOfFirst sel "content" = some s)
    (h2 : jsTrim s ≠ "") :
    priceFromMeta d (sel :: rest)
      = some (jsTrim (formattedCurrency d ++ jsTrim s)) := by
  rw [priceFromMeta, h1]
  simp only [if_neg h2]

lemma priceFromMeta_hit (d : Doc) (sels : List String) (sel s : String)
    (hmem : sel ∈ sels) (h1 : d.attrOfFirst sel "content" = some s)
    (h2 : jsTrim s ≠ "") : ∃ r, priceFromMeta d sels = some r := by
  induction sels with
  | nil => cases hmem
  | cons a rest ih =>
    rw [priceFromMeta]
    cases hattr : d.attrOfFirst a "content" with
    | none =>
      rcases List.mem_cons.mp hmem with hEq | hRest
      · subst hEq; rw [h1] at hattr; cases hattr
      · exact ih hRest
    | some c =>
      by_cases hc : jsTrim c = ""
      · simp only [if_pos hc]
        rcases List.mem_cons.mp hmem with hEq | hRest
        · subst hEq
          rw [h1] at hattr
          injection hattr with h3
          subst h3
          exact absurd hc h2
        · exact ih hRest
      · simp only [if_neg hc]
        exact ⟨_, rfl⟩

lemma extractPrice_eq_of_meta {d : Doc} {r : String}
    (h : priceFromMeta d priceMetaSelectors = some r) :
    extractPrice d = some r := by
  rw [extractPrice, h]

/-- Claim C4: whenever a tier-1 price meta selector carries truthy
trimmed content, `extractPrice` returns the tier-1 (meta-tag-derived)
value: the document is otherwise arbitrary, so any conflicting
class-contains-price element of tier 2 is never consulted. -/
theorem C4_meta_tier_precedence (d : Doc) (sel s : String)
    (hmem : sel ∈ priceMetaSelectors)
    (h1 : d.attrOfFirst sel "content" = some s)
    (h2 : jsTrim s ≠ "") :
    ∃ r, priceFromMeta d priceMetaSelectors = some r
      ∧ extractPrice d = some r := by
  obtain ⟨r, hr⟩ := priceFromMeta_hit d priceMetaSelectors sel s hmem h1 h2
  exact ⟨r, hr, extractPrice_eq_of_meta hr⟩

/-- A document with `product:price:amount = "9.99"` and a conflicting
class-contains-price element whose text is `$123`. -/
def C4doc : Doc :=
  { select := fun sel =>
      if sel = "meta[property=\"product:price:amount\"]" then
        [{ attrs := [("content", "9.99")], text := "" }]
      else if sel = "[class*=\"price\"]" then
        [{ attrs := [], text := "$123" }]
      else []
  , html := "" }

/-- Witness for C4: on `C4doc` the meta tier wins over the conflicting
element and the extracted price is the meta-derived `9.99`. -/
theorem C4_meta_tier_precedence_witness : extractPrice C4doc = some "9.99" := by
  obtain ⟨r, h1, h2⟩ := C4_meta_tier_precedence C4doc
    "meta[property=\"product:price:amount\"]" "9.99" (by decide) rfl (by decide)
  have h3 : priceFromMeta C4doc priceMetaSelectors = some "9.99" := rfl
  rw [h3] at h1
  injection h1

lemma currencyOf_of_first {d : Doc} {c : String}
    (h : d.attrOfFirst "meta[property=\"product:price:currency\"]" "content"
          = some c)
    (hc : c ≠ "") : currencyOf d = c := by
  rw [currencyOf, h]
  simp [truthyOr, hc]

/-- Claim C5: `product:price:amount = "19.99"` together with
`product:price:currency = "USD"` yields exactly `"USD 19.99"`: the
currency code is prefixed, space-separated, to the trimmed price. -/
theorem C5_currency_prefix (d : Doc)
    (h1 : d.attrOfFirst "meta[property=\"product:price:amount\"]" "content"
          = some "19.99")
    (h2 : d.attrOfFirst "meta[property=\"product:price:currency\"]" "content"
          = some "USD") :
    extractPrice d = some "USD 19.99" := by
  have hcur : currencyOf d = "USD" := currencyOf_of_first h2 (by decide)
  have hfc : formattedCurrency d = "USD " := by
    rw [formattedCurrency, hcur]
    decide
  have hmeta := priceFromMeta_cons_hit
    ["meta[itemprop=\"price\"]", "meta[name=\"price\"]",
     "meta[property=\"og:price:amount\"]"] h1 (by decide)
  rw [hfc] at hmeta
  have hval : jsTrim ("USD " ++ jsTrim "19.99") = "USD 19.99" := by decide
  rw [hval] at hmeta
  exact extractPrice_eq_of_meta hmeta

/-- A document carrying exactly the amount and currency meta tags of
claim C5. -/
def C5doc : Doc :=
  { select := fun sel =>
      if sel = "meta[property=\"product:price:amount\"]" then
        [{ attrs := [("content", "19.99")], text := "" }]
      else if sel = "meta[property=\"product:price:currency\"]" then
        [{ attrs := [("content", "USD")], text := "" }]
      else []
  , html := "" }

/-- Witness for C5 at the concrete document. -/
theorem C5_currency_prefix_witness : extractPrice C5doc = some "USD 19.99" :=
  C5_currency_prefix C5doc rfl rfl

/-! ### Image extractor lemmas -/

lemma mem_pushOg (d : Doc) (sels : List String) {images : List String}
    {x : String} (hx : x ∈ images) : x ∈ pushOg d sels images := by
  induction sels generalizing images with
  | nil => exact hx
  | cons sel rest ih =>
    rw [pushOg]
    cases d.attrOfFirst sel "content" with
    | none => exact ih hx
    | some c =>
      by_cases h1 : c = ""
      · simp only [if_pos h1]; exact ih hx
      · simp only [if_neg h1]
        by_cases h2 : c ∈ images
        · simp only [if_pos h2]; exact ih hx
        · simp only [if_neg h2]
          exact ih (List.mem_append.mpr (Or.inl hx))

lemma mem_pushPlatformElems (platform : String) (es : List Elem)
    {images : List String} {x : String} (hx : x ∈ images) :
    x ∈ pushPlatformElems platform es images := by
  induction es generalizing images with
  | nil => exact hx
  | cons e rest ih =>
    rw [pushPlatformElems]
    cases imageSrcOf platform e with
    | none => exact ih hx
    | some s =>
      by_cases h1 : s = ""
      · simp only [if_pos h1]; exact ih hx
      · simp only [if_neg h1]
        by_cases h2 : s ∈ images
        · simp only [if_pos h2]; exact ih hx
        · simp only [if_neg h2]
          by_cases h3 : isSmallOrIconImage s = true
          · simp only [if_pos h3]; exact ih hx
          · simp only [if_neg h3]
            exact ih (List.mem_append.mpr (Or.inl hx))

lemma mem_pushPlatformSelectors (d : Doc) (platform : String)
    (sels : List String) {images : List String} {x : String}
    (hx : x ∈ images) : x ∈ pushPlatformSelectors d platform sels images := by
  induction sels generalizing images with
  | nil => exact hx
  | cons sel rest ih =>
    simp only [pushPlatformSelectors]
    by_cases h1 : 10 ≤ (pushPlatformElems platform (d.select sel) images).length
    · simp only [if_pos h1]
      exact mem_pushPlatformElems _ _ hx
    · simp only [if_neg h1]
      exact ih (mem_pushPlatformElems _ _ hx)

lemma mem_pushSchemaElems (es : List Elem) {images : List String}
    {x : String} (hx : x ∈ images) : x ∈ pushSchemaElems es images := by
  induction es generalizing images with
  | nil => exact hx
  | cons e rest ih =>
    rw [pushSchemaElems]
    cases e.attr "src" with
    | none => exact ih hx
    | some s =>
      by_cases h1 : s = ""
      · simp only [if_pos h1]; exact ih hx
      · simp only [if_neg h1]
        by_cases h2 : s ∈ images
        · simp only [if_pos h2]; exact ih hx
        · simp only [if_neg h2]
          by_cases h3 : images.length < 10
          · simp only [if_pos h3]
            exact ih (List.mem_append.mpr (Or.inl hx))
          · simp only [if_neg h3]; exact ih hx

lemma not_mem_pushPlatformElems_of_icon (platform : String) (es : List Elem)
    {images : List String} {s : String} (hicon : isSmallOrIconImage s = true)
    (hs : s ∉ images) : s ∉ pushPlatformElems platform es images := by
  induction es generalizing images with
  | nil => exact hs
  | cons e rest ih =>
    rw [pushPlatformElems]
    cases imageSrcOf platform e with
    | none => exact ih hs
    | some s2 =>
      by_cases h1 : s2 = ""
      · simp only [if_pos h1]; exact ih hs
      · simp only [if_neg h1]
        by_cases h2 : s2 ∈ images
        · simp only [if_pos h2]; exact ih hs
        · simp only [if_neg h2]
          by_cases h3 : isSmallOrIconImage s2 = true
          · simp only [if_pos h3]; exact ih hs
          · simp only [if_neg h3]
            apply ih
            intro hmem
            rcases List.mem_append.mp hmem with hL | hR
            · exact hs hL
            · rw [List.mem_singleton] at hR
              subst hR
              exact h3 hicon

lemma not_mem_pushPlatformSelectors_of_icon (d : Doc) (platform : String)
    (sels : List String) {images : List String} {s : String}
    (hicon : isSmallOrIconImage s = true) (hs : s ∉ images) :
    s ∉ pushPlatformSelectors d platform sels images := by
  induction sels generalizing images with
  | nil => exact hs
  | cons sel rest ih =>
    simp only [pushPlatformSelectors]
    by_cases h1 : 10 ≤ (pushPlatformElems platform (d.select sel) images).length
    · simp only [if_pos h1]
      exact not_mem_pushPlatformElems_of_icon _ _ hicon hs
    · simp only [if_neg h1]
      exact ih (not_mem_pushPlatformElems_of_icon _ _ hicon hs)

lemma nodup_append_singleton {l : List String} {c : String}
    (h : l.Nodup) (hc : c ∉ l) : (l ++ [c]).Nodup :=
  List.Nodup.append h (List.nodup_singleton c) (List.disjoint_singleton.mpr hc)

lemma nodup_pushOg (d : Doc) (sels : List String) {images : List String}
    (h : images.Nodup) : (pushOg d sels images).Nodup := by
  induction sels generalizing images with
  | nil => exact h
  | cons sel rest ih =>
    rw [pushOg]
    cases d.attrOfFirst sel "content" with
    | none => exact ih h
    | some c =>
      by_cases h1 : c = ""
      · simp only [if_pos h1]; exact ih h
      · simp only [if_neg h1]
        by_cases h2 : c ∈ images
        · simp only [if_pos h2]; exact ih h
        · simp only [if_neg h2]
          exact ih (nodup_append_singleton h h2)

lemma nodup_pushPlatformElems (platform : String) (es : List Elem)
    {images : List String} (h : images.Nodup) :
    (pushPlatformElems platform es images).Nodup := by
  induction es generalizing images with
  | nil => exact h
  | cons e rest ih =>
    rw [pushPlatformElems]
    cases imageSrcOf platform e with
    | none => exact ih h
    | some s =>
      by_cases h1 : s = ""
      · simp only [if_pos h1]; exact ih h
      · simp only [if_neg h1]
        by_cases h2 : s ∈ images
        · simp only [if_pos h2]; exact ih h
        · simp only [if_neg h2]
          by_cases h3 : isSmallOrIconImage s = true
          · simp only [if_pos h3]; exact ih h
          · simp only [if_neg h3]
            exact ih (nodup_append_singleton h h2)

lemma nodup_pushPlatformSelectors (d : Doc) (platform : String)
    (sels : List String) {images : List String} (h : images.Nodup) :
    (pushPlatformSelectors d platform sels images).Nodup := by
  induction sels generalizing images with
  | nil => exact h
  | cons sel rest ih =>
    simp only [pushPlatformSelectors]
    by_cases h1 : 10 ≤ (pushPlatformElems platform (d.select sel) images).length
    · simp only [if_pos h1]
      exact nodup_pushPlatformElems _ _ h
    · simp only [if_neg h1]
      exact ih (nodup_pushPlatformElems _ _ h)

lemma nodup_pushSchemaElems (es : List Elem) {images : List String}
    (h : images.Nodup) : (pushSchemaElems es images).Nodup := by
  induction es generalizing images with
  | nil => exact h
  | cons e rest ih =>
    rw [pushSchemaElems]
    cases e.attr "src" with
    | none => exact ih h
    | some s =>
      by_cases h1 : s = ""
      · simp only [if_pos h1]; exact ih h
      · simp only [if_neg h1]
        by_cases h2 : s ∈ images
        · simp only [if_pos h2]; exact ih h
        · simp only [if_neg h2]
          by_cases h3 : images.length < 10
          · simp only [if_pos h3]
            exact ih (nodup_append_singleton h h2)
          · simp only [if_neg h3]; exact ih h

lemma pushOg_of_falsy (d : Doc) (sels : List String) (images : List String)
    (h : ∀ sel ∈ sels, jsFalsyOpt (d.attrOfFirst sel "content") = true) :
    pushOg d sels images = images := by
  induction sels with
  | nil => rfl
  | cons sel rest ih =>
    rw [pushOg]
    have hsel := h sel (List.mem_cons_self _ _)
    cases hattr : d.attrOfFirst sel "content" with
    | none => exact ih (fun s hs => h s (List.mem_cons_of_mem _ hs))
    | some c =>
      rw [hattr] at hsel
      simp only [jsFalsyOpt, beq_iff_eq] at hsel
      simp only [if_pos hsel]
      exact ih (fun s hs => h s (List.mem_cons_of_mem _ hs))

lemma pushPlatformSelectors_of_empty (d : Doc) (platform : String)
    (sels : List String) (images : List String)
    (h : ∀ sel ∈ sels, d.select sel = []) :
    pushPlatformSelectors d platform sels images = images := by
  induction sels with
  | nil => rfl
  | cons sel rest ih =>
    simp only [pushPlatformSelectors]
    rw [h sel (List.mem_cons_self _ _)]
    simp only [pushPlatformElems]
    split
    · rfl
    · exact ih (fun s hs => h s (List.mem_cons_of_mem _ hs))

/-! ### Claims C1 and C6 -/

/-- A gallery image element with source `pre ++ i ++ ".jpg"`. -/
def galleryImg (pre : String) (i : Nat) : Elem :=
  { attrs := [("src", pre ++ toString i ++ ".jpg")], text := "" }

/-- A generic-platform document whose first gallery selector matches 20
distinct non-icon images. -/
def C1bigDoc : Doc :=
  { select := fun sel =>
      if sel = "[itemprop=\"image\"]" then (List.range 20).map (galleryImg "a")
      else []
  , html := "" }

/-- A generic-platform document with 20 distinct non-icon gallery images
split over the first two gallery selectors, 10 each. -/
def C1splitDoc : Doc :=
  { select := fun sel =>
      if sel = "[itemprop=\"image\"]" then (List.range 10).map (galleryImg "a")
      else if sel = ".product-image img" then (List.range 10).map (galleryImg "b")
      else []
  , html := "" }

/-- Counterexample to claim C1 as stated: the 10-image cap is only
tested after each platform selector completes, so a single platform
selector matching 20 distinct non-icon gallery images produces a
20-entry result, not at most 10. -/
theorem C1_images_cap_counterexample :
    ¬ (extractImages C1bigDoc "https://example.com/product").length ≤ 10 := by
  decide

/-- Claim C1 (amended): the images sequence is always de-duplicated by
exact string equality and preserves extraction-priority insertion order,
but the 10-entry cap is only enforced between platform-selector
iterations (and per push in the schema.org tier); a document whose 20
distinct non-icon gallery images are split across two platform
selectors, ten each, yields exactly the first selector's 10 entries in
document order. -/
theorem C1_images_dedup_and_cap :
    (∀ (d : Doc) (url : String), (extractImages d url).Nodup) ∧
    extractImages C1splitDoc "https://example.com/product" =
      ["a0.jpg", "a1.jpg", "a2.jpg", "a3.jpg", "a4.jpg",
       "a5.jpg", "a6.jpg", "a7.jpg", "a8.jpg", "a9.jpg"] := by
  constructor
  · intro d url
    exact nodup_pushSchemaElems _
      (nodup_pushPlatformSelectors _ _ _ (nodup_pushOg _ _ List.nodup_nil))
  · decide

/-- Claim C6: the small/icon substring filter is applied in the
platform-specific tier and in no other tier.  First conjunct: any truthy
URL delivered by the Open-Graph image meta tag lands in the result even
when it matches the block-list.  Second conjunct: when the Open-Graph
tier finds nothing truthy and the schema.org selector matches nothing, a
block-listed URL can never appear — the platform tier discards it no
matter which selector matched it.  Third conjunct: the schema.org tier
also performs no filtering, so a block-listed URL reachable only there
is returned. -/
theorem C6_icon_filter_tiers :
    (∀ (d : Doc) (url u : String),
       d.attrOfFirst "meta[property=\"og:image\"]" "content" = some u →
       u ≠ "" → u ∈ extractImages d url) ∧
    (∀ (d : Doc) (url s : String),
       (∀ sel ∈ ogImageSelectors,
          jsFalsyOpt (d.attrOfFirst sel "content") = true) →
       d.select schemaImgSelector = [] →
       isSmallOrIconImage s = true →
       s ∉ extractImages d url) ∧
    (∀ (d : Doc) (url : String) (e : Elem) (s : String),
       (∀ sel ∈ ogImageSelectors,
          jsFalsyOpt (d.attrOfFirst sel "content") = true) →
       (∀ sel ∈ platformSelectors (detectPlatform d url),
          d.select sel = []) →
       d.select schemaImgSelector = [e] →
       e.attr "src" = some s → s ≠ "" →
       extractImages d url = [s]) := by
  refine ⟨?_, ?_, ?_⟩
  · intro d url u hattr hu
    have h1 : u ∈ pushOg d ogImageSelectors [] := by
      rw [ogImageSelectors, pushOg, hattr]
      simp only [if_neg hu, if_neg (List.not_mem_nil u)]
      exact mem_pushOg d _ (by simp)
    exact mem_pushSchemaElems _ (mem_pushPlatformSelectors _ _ _ h1)
  · intro d url s hog hschema hicon
    have h1 : pushOg d ogImageSelectors [] = [] := pushOg_of_falsy d _ [] hog
    have hEq : extractImages d url
        = pushPlatformSelectors d (detectPlatform d url)
            (platformSelectors (detectPlatform d url)) [] := by
      show pushSchemaElems (d.select schemaImgSelector)
          (pushPlatformSelectors d (detectPlatform d url)
            (platformSelectors (detectPlatform d url))
            (pushOg d ogImageSelectors [])) = _
      rw [hschema, h1]
      rfl
    rw [hEq]
    exact not_mem_pushPlatformSelectors_of_icon _ _ _ hicon
      (List.not_mem_nil s)
  · intro d url e s hog hplat hschema hsrc hs
    have h1 : pushOg d ogImageSelectors [] = [] := pushOg_of_falsy d _ [] hog
    have h2 : pushPlatformSelectors d (detectPlatform d url)
        (platformSelectors (detectPlatform d url)) [] = [] :=
      pushPlatformSelectors_of_empty _ _ _ _ hplat
    show pushSchemaElems (d.select schemaImgSelector)
        (pushPlatformSelectors d (detectPlatform d url)
          (platformSelectors (detectPlatform d url))
          (pushOg d ogImageSelectors [])) = [s]
    rw [hschema, h1, h2, pushSchemaElems, hsrc]
    simp only [if_neg hs, if_neg (List.not_mem_nil s),
      if_pos (by decide : ([] : List String).length < 10)]
    rfl

/-- A document whose only image source is a block-listed URL in the
Open-Graph image meta tag. -/
def C6ogDoc : Doc :=
  { select := fun sel =>
      if sel = "meta[property=\"og:image\"]" then
        [{ attrs := [("content", "https://x/logo-sprite.png")], text := "" }]
      else []
  , html := "" }

/-- A document whose only image source is a block-listed URL matched by
a generic platform gallery selector. -/
def C6platDoc : Doc :=
  { select := fun sel =>
      if sel = "[itemprop=\"image\"]" then
        [{ attrs := [("src", "https://x/logo-sprite.png")], text := "" }]
      else []
  , html := "" }

/-- A document whose only image source is a block-listed URL matched by
the schema.org fallback selector. -/
def C6schemaDoc : Doc :=
  { select := fun sel =>
      if sel = "[itemtype*=\"schema.org/Product\"] img[itemprop=\"image\"]" then
        [{ attrs := [("src", "https://x/logo-sprite.png")], text := "" }]
      else []
  , html := "" }

/-- Witness for C6: the same block-listed URL is kept from the
Open-Graph tier, dropped from the platform tier, and kept from the
schema.org tier. -/
theorem C6_icon_filter_tiers_witness :
    "https://x/logo-sprite.png" ∈ extractImages C6ogDoc "https://example.com/p" ∧
    "https://x/logo-sprite.png" ∉ extractImages C6platDoc "https://example.com/p" ∧
    extractImages C6schemaDoc "https://example.com/p"
      = ["https://x/logo-sprite.png"] :=
  ⟨C6_icon_filter_tiers.1 C6ogDoc "https://example.com/p"
      "https://x/logo-sprite.png" rfl (by decide),
   C6_icon_filter_tiers.2.1 C6platDoc "https://example.com/p"
      "https://x/logo-sprite.png" (by decide) rfl (by decide),
   C6_icon_filter_tiers.2.2 C6schemaDoc "https://example.com/p"
      { attrs := [("src", "https://x/logo-sprite.png")], text := "" }
      "https://x/logo-sprite.png" (by decide) (by decide) rfl rfl (by decide)⟩

/-! ### Claim C7: store name -/

/-- Whether an optional attribute fails the `v && v.trim()` guard. -/
def trimFalsy : Option String → Bool
  | none => true
  | some s => jsTrim s == ""

lemma storeFromMeta_none_of_falsy {d : Doc} {sel : String}
    (h : trimFalsy (d.attrOfFirst sel "content") = true) :
    storeFromMeta d sel = none := by
  rw [storeFromMeta]
  cases hattr : d.attrOfFirst sel "content" with
  | none => rfl
  | some s =>
    rw [hattr] at h
    simp only [trimFalsy, beq_iff_eq] at h
    simp only [if_pos h]

/-- A document in which no selector matches anything. -/
def C7emptyDoc : Doc :=
  { select := fun _ => [], html := "" }

/-- Counterexample to claim C7 as stated: `http://localhost/page`
parses (hostname `localhost`) and no meta tag matches, yet the store
name is absent — the source additionally requires the www-stripped
hostname to have at least two dot-separated labels. -/
theorem C7_store_name_counterexample :
    (parseUrlHostname "http://localhost/page").isSome = true ∧
    extractStoreName C7emptyDoc "http://localhost/page" = none := by
  decide

/-- Claim C7 (amended): when neither the OG site-name nor the
application-name meta tag yields a truthy trimmed value, the store name
is derived from the URL hostname (strip a leading `www.`, split on `.`,
capitalize the first label) whenever the URL parses and the stripped
hostname has at least two dot-separated labels; it is absent when the
URL does not parse, and also when the stripped hostname is a single
label. -/
theorem C7_store_name_from_host (d : Doc) (url : String)
    (h1 : trimFalsy
        (d.attrOfFirst "meta[property=\"og:site_name\"]" "content") = true)
    (h2 : trimFalsy
        (d.attrOfFirst "meta[name=\"application-name\"]" "content") = true) :
    (∀ host p ps, parseUrlHostname url = some host →
       splitOnChar '.' (stripWww host).data = p :: ps → ps ≠ [] →
       extractStoreName d url = some (capFirst (String.mk p))) ∧
    (parseUrlHostname url = none → extractStoreName d url = none) ∧
    (∀ host p, parseUrlHostname url = some host →
       splitOnChar '.' (stripWww host).data = [p] →
       extractStoreName d url = none) := by
  have hm1 := storeFromMeta_none_of_falsy h1
  have hm2 := storeFromMeta_none_of_falsy h2
  have hE : extractStoreName d url = storeFromHost url := by
    rw [extractStoreName, hm1, hm2]
  have hHost : ∀ host, parseUrlHostname url = some host →
      storeFromHost url =
        match splitOnChar '.' (stripWww host).data with
        | p :: _ :: _ => some (capFirst (String.mk p))
        | _ => none := by
    intro host h
    rw [storeFromHost, h]
  refine ⟨?_, ?_, ?_⟩
  · intro host p ps hhost hsplit hps
    cases ps with
    | nil => exact absurd rfl hps
    | cons q t =>
      rw [hE, hHost host hhost, hsplit]
  · intro hnone
    rw [hE, storeFromHost, hnone]
  · intro host p hhost hsplit
    rw [hE, hHost host hhost, hsplit]

/-- Witness for the amended C7 on the no-meta document at
`https://shop.example/widget`: the hostname has two labels, so the
first label is capitalized. -/
theorem C7_store_name_from_host_witness :
    extractStoreName C7emptyDoc "https://shop.example/widget" = some "Shop" := by
  have h := (C7_store_name_from_host C7emptyDoc "https://shop.example/widget"
      (by decide) (by decide)).1 "shop.example" "shop".data ["example".data]
      rfl rfl (by decide)
  have hcap : capFirst (String.mk "shop".data) = "Shop" := by decide
  rw [hcap] at h
  exact h

/-! ### Claim C8: whitespace collapsing and the body tier -/

/-- A document whose only price source is raw body text with a tab run
inside the price. -/
def C8cexDoc : Doc :=
  { select := fun sel =>
      if sel = "body" then [{ attrs := [], text := "only $\t\t5 today" }]
      else []
  , html := "" }

/-- Counterexample to claim C8 as stated: the whole-body fallback
applies the currency regex to the raw body text, so a tab run inside
the matched price survives into the result (`"$\t\t5"`), whereas
collapsing whitespace runs before matching — which the claim requires
in every tier — would yield `"$ 5"`. -/
theorem C8_collapse_counterexample :
    extractPrice C8cexDoc = some "$\t\t5" ∧
    Option.map (fun m => String.mk (trimList m))
        (findCurrencyMatch (collapseWs (C8cexDoc.textOf "body")).data)
      = some "$ 5" ∧
    ("$\t\t5" : String) ≠ "$ 5" := by
  decide

/-- Claim C8 (amended): internal whitespace runs are collapsed before
pattern application in the element tier only (where it is built into the
candidate preparation); the whole-body fallback applies the currency
regex to the raw rendered body text: when tiers 1 and 2 fail, the
extracted price is the trimmed first raw-text currency match. -/
theorem C8_body_tier_raw (d : Doc)
    (h1 : priceFromMeta d priceMetaSelectors = none)
    (h2 : priceFromElements d priceElementSelectors = none) :
    extractPrice d
      = Option.map (fun m => String.mk (trimList m))
          (findCurrencyMatch (d.textOf "body").data) := by
  rw [extractPrice, h1, h2]
  cases findCurrencyMatch (d.textOf "body").data <;> rfl

/-- A document whose only price source is plain body text. -/
def C8rawDoc : Doc :=
  { select := fun sel =>
      if sel = "body" then [{ attrs := [], text := "sale price £ 9.50 only" }]
      else []
  , html := "" }

/-- Witness for the amended C8: with no meta or element price, the raw
body text decides the price. -/
theorem C8_body_tier_raw_witness : extractPrice C8rawDoc = some "£ 9.50" := by
  rw [C8_body_tier_raw C8rawDoc rfl rfl]
  decide

/-- A document with an Open-Graph title but no extractable price. -/
def C3titleDoc : Doc :=
  { select := fun sel =>
      if sel = "meta[property=\"og:title\"]" then
        [{ attrs := [("content", "Nice Lamp")], text := "" }]
      else []
  , html := "" }

/-- Witness for C3: a well-formed document with a title but no
extractable price yields the populated title, a null price, and the
fixed price-not-found message. -/
theorem C3_price_required_policy_witness :
    fetchProductMetadata (Except.ok C3titleDoc) "https://shop.example/lamp" =
      { url := "https://shop.example/lamp", title := some "Nice Lamp",
        price := none, images := [], store := some "Shop", storeLogo := none,
        error := some "Price could not be determined from the page content." } := by
  have h := (C3_price_required_policy C3titleDoc "https://shop.example/lamp").2.1 rfl
  rw [h]
  decide

end ProductFetcher
